import Mathlib

/-!
# Verification of the waypoint-interpolation / affine-mapping / heatmap pipeline

Shallow embedding of the core algorithmic functions of the repository
(`way_point_test/geomag_heatmap.py`, `10.4waypoint_heatmap.py`, `geomagnetic.py`)
and proofs about them.  Python floats are modelled by `ℚ` (all arithmetic used by
the claims is exact: sums, products, divisions), millisecond timestamps by `ℤ`,
Python exceptions by `Except Unit`, and `None` by `Option`.
-/

/-! ## Python-style string utilities

The sensor-log parsers use `str.strip`, `str.split()` (split on whitespace runs,
discarding empties), `str.replace(",", " ")`, `int(...)` and `float(...)`.
We model them over `List Char`.
-/

/-- Python `str.strip()`: drop leading and trailing whitespace. -/
def trimChars (cs : List Char) : List Char :=
  ((cs.dropWhile Char.isWhitespace).reverse.dropWhile Char.isWhitespace).reverse

/-- Helper for `pySplit`: accumulate the current (reversed) token. -/
def pySplitAux : List Char → List Char → List (List Char)
  | [], [] => []
  | [], cur => [cur.reverse]
  | c :: rest, cur =>
    if c.isWhitespace then
      if cur = [] then pySplitAux rest [] else cur.reverse :: pySplitAux rest []
    else pySplitAux rest (c :: cur)

/-- Python `str.split()` with no argument: split on runs of whitespace,
no empty tokens. -/
def pySplit (cs : List Char) : List (List Char) :=
  pySplitAux cs []

/-- Python `s.replace(",", " ")` (single-character replacement). -/
def commaToSpace (cs : List Char) : List Char :=
  cs.map (fun c => if c = ',' then ' ' else c)

/-- Value of a digit string (`[] ↦ 0`). -/
def digitsVal : List Char → Nat
  | [] => 0
  | c :: rest => (c.toNat - '0'.toNat) * 10 ^ rest.length + digitsVal rest

/-- A non-empty all-digit string, or failure. -/
def digitsNat : List Char → Option Nat
  | [] => none
  | cs => if cs.all Char.isDigit then some (digitsVal cs) else none

/-- Python `int(s)`: optional surrounding whitespace, optional sign, digits.
(`int` of a non-integer literal such as `"3.5"` or `"abc"` raises, modelled
as `none`.) -/
def pyInt (s : String) : Option Int :=
  match trimChars s.toList with
  | '-' :: rest => (digitsNat rest).map (fun n => -(n : Int))
  | '+' :: rest => (digitsNat rest).map (fun n => (n : Int))
  | cs => (digitsNat cs).map (fun n => (n : Int))

/-- Decimal-literal part of Python `float(s)`: `digits`, `digits.digits`,
`digits.` or `.digits` after an optional sign.  Scientific notation and the
`inf`/`nan` literals are not exercised by any input in this development and
are modelled as failure. -/
def pyFloat (s : String) : Option ℚ :=
  let cs := trimChars s.toList
  let signed : ℚ × List Char :=
    match cs with
    | '-' :: rest => (-1, rest)
    | '+' :: rest => (1, rest)
    | rest => (1, rest)
  let sign := signed.1
  let body := signed.2
  let ip := body.takeWhile Char.isDigit
  let rest := body.dropWhile Char.isDigit
  match rest with
  | [] => if ip = [] then none else some (sign * (digitsVal ip : ℚ))
  | '.' :: fp =>
    if fp.all Char.isDigit ∧ (ip ≠ [] ∨ fp ≠ []) then
      some (sign * ((digitsVal ip : ℚ) + (digitsVal fp : ℚ) / 10 ^ fp.length))
    else none
  | _ => none

/-! ## Two-pointer temporal interpolator

`interpolate_pos_for_times(waypoints, times, mode)` from
`way_point_test/geomag_heatmap.py` (lines 180–213; the copy in
`geomag_trackmap_folium.py` lines 181–205 is identical).
A waypoint is `(t, x, y)`; `mode ∈ {"linear","hold","skip"}`.
-/

/-- Interpolation mode of `interpolate_pos_for_times`. -/
inductive IMode
  | linear
  | hold
  | skip
deriving DecidableEq, Repr

/-- A waypoint record `(t, x, y)`. -/
abbrev WP := Int × ℚ × ℚ

/-- `ts = [w[0] for w in waypoints]`. -/
def tsList (wps : List WP) : List Int :=
  wps.map (fun w => w.1)

/-- `ts[i]` (indices are always in range when used). -/
def nthT (wps : List WP) (i : Nat) : Int :=
  (wps.getD i (0, 0, 0)).1

/-- `xs[i]`. -/
def nthX (wps : List WP) (i : Nat) : ℚ :=
  (wps.getD i (0, 0, 0)).2.1

/-- `ys[i]`. -/
def nthY (wps : List WP) (i : Nat) : ℚ :=
  (wps.getD i (0, 0, 0)).2.2

/-- The advance loop `while j+1 < n and ts[j+1] <= t: j += 1`, written with
explicit fuel (structural recursion) so that it evaluates by kernel reduction;
`fuel = ts.length` always suffices because `j` strictly increases and the loop
exits once `j + 1 = ts.length`. -/
def advanceJAux (ts : List Int) (t : Int) : Nat → Nat → Nat
  | 0, j => j
  | fuel + 1, j =>
    if j + 1 < ts.length ∧ ts.getD (j + 1) 0 ≤ t then advanceJAux ts t fuel (j + 1)
    else j

/-- The advance loop `while j+1 < n and ts[j+1] <= t: j += 1`. -/
def advanceJ (ts : List Int) (t : Int) (j : Nat) : Nat :=
  advanceJAux ts t ts.length j

/-- The per-sample body of the `for t in times` loop, after the advance loop,
with the pointer at `j`.  Mirrors the source control flow: the `linear` and
`hold` branches `continue`; everything else falls through to the
before-first / after-last / else chain. -/
def interpOne (mode : IMode) (wps : List WP) (j : Nat) (t : Int) : Option (ℚ × ℚ) :=
  let n := wps.length
  if j < n - 1 ∧ nthT wps j ≤ t ∧ t ≤ nthT wps (j + 1) ∧ mode = .linear then
    let t0 := nthT wps j
    let t1 := nthT wps (j + 1)
    let r : ℚ := ((t - t0 : ℤ) : ℚ) / ((max 1 (t1 - t0) : ℤ) : ℚ)
    some (nthX wps j * (1 - r) + nthX wps (j + 1) * r,
          nthY wps j * (1 - r) + nthY wps (j + 1) * r)
  else if j < n - 1 ∧ nthT wps j ≤ t ∧ t ≤ nthT wps (j + 1) ∧ mode = .hold then
    some (nthX wps j, nthY wps j)
  else if t < nthT wps 0 then
    if mode = .hold then some (nthX wps 0, nthY wps 0) else none
  else if nthT wps (n - 1) < t then
    if mode = .hold then some (nthX wps (n - 1), nthY wps (n - 1)) else none
  else
    some (nthX wps j, nthY wps j)

/-- The `for t in times` loop with its persistent pointer `j`. -/
def interpGo (mode : IMode) (wps : List WP) (j : Nat) : List Int → List (Option (ℚ × ℚ))
  | [] => []
  | t :: rest =>
    let j' := advanceJ (tsList wps) t j
    interpOne mode wps j' t :: interpGo mode wps j' rest

/-- `interpolate_pos_for_times(waypoints, times, mode)`
(`way_point_test/geomag_heatmap.py:180`). -/
def interpolate_pos_for_times (wps : List WP) (times : List Int) (mode : IMode) :
    List (Option (ℚ × ℚ)) :=
  if wps.isEmpty then times.map (fun _ => none)
  else interpGo mode wps 0 times

/-! ## Sorting

`pandas.sort_values("ts")` / `list.sort(key=lambda x: x[0])` are modelled by
`List.insertionSort` on the timestamp key (a correct comparison sort; no claim
in this development depends on the order of equal timestamps).
-/

/-- Timestamp order on waypoint rows. -/
def leTs (a b : WP) : Prop := a.1 ≤ b.1

instance : DecidableRel leTs := fun a b => inferInstanceAs (Decidable (a.1 ≤ b.1))

instance : IsTotal WP leTs := ⟨fun a b => le_total a.1 b.1⟩

instance : IsTrans WP leTs := ⟨fun _ _ _ hab hbc => le_trans hab hbc⟩

/-- Sort waypoint rows by timestamp (`wp.sort_values("ts")`,
`wps.sort(key=lambda x: x[0])`). -/
def sortWp (l : List WP) : List WP := l.insertionSort leTs

/-- Strict timestamp order on waypoint rows (used to state that a waypoint
sequence has strictly increasing timestamps). -/
def ltTs (a b : WP) : Prop := a.1 < b.1

instance : DecidableRel ltTs := fun a b => inferInstanceAs (Decidable (a.1 < b.1))

instance : IsTrans WP ltTs := ⟨fun _ _ _ hab hbc => lt_trans hab hbc⟩

/-- Timestamp order on magnetic rows `(ts, B)`. -/
def leT2 (a b : Int × ℚ) : Prop := a.1 ≤ b.1

instance : DecidableRel leT2 := fun a b => inferInstanceAs (Decidable (a.1 ≤ b.1))

instance : IsTotal (Int × ℚ) leT2 := ⟨fun a b => le_total a.1 b.1⟩

instance : IsTrans (Int × ℚ) leT2 := ⟨fun _ _ _ hab hbc => le_trans hab hbc⟩

/-- Sort magnetic sample rows by timestamp (`mf.sort_values("ts")`). -/
def sortMf (l : List (Int × ℚ)) : List (Int × ℚ) := l.insertionSort leT2

/-! ## `merge_asof`-based interpolator

`interpolate_magnetic_to_xy(mf, wp)` from `geomagnetic.py` lines 169–190
(the copy in `10.4waypoint_heatmap.py` lines 401–423 is identical).
`pd.merge_asof(..., direction="backward")` matches each sample timestamp with
the last waypoint row whose timestamp is `≤` it; `direction="forward"` with
the first row whose timestamp is `≥` it (both frames sorted by `ts`).
-/

/-- Backward `merge_asof` match: the last row with `ts ≤ t`. -/
def findPrevRow (t : Int) : List WP → Option WP
  | [] => none
  | w :: ws =>
    if w.1 ≤ t then
      match findPrevRow t ws with
      | some r => some r
      | none => some w
    else findPrevRow t ws

/-- Forward `merge_asof` match: the first row with `t ≤ ts`. -/
def findNextRow (t : Int) : List WP → Option WP
  | [] => none
  | w :: ws => if t ≤ w.1 then some w else findNextRow t ws

/-- The per-sample computation of `interpolate_magnetic_to_xy` on the sorted
waypoint frame: backward and forward matches, the filter
`ts_next > ts_prev`, and the linear interpolation
`x = x_prev + t·(x_next - x_prev)` with `t = (ts - ts_prev)/(ts_next - ts_prev)`. -/
def asofOne (wp : List WP) (t : Int) (B : ℚ) : Option (Int × ℚ × ℚ × ℚ) :=
  match findPrevRow t wp, findNextRow t wp with
  | some wprev, some wnext =>
    if wprev.1 < wnext.1 then
      let r : ℚ := ((t - wprev.1 : ℤ) : ℚ) / ((wnext.1 - wprev.1 : ℤ) : ℚ)
      some (t, wprev.2.1 + r * (wnext.2.1 - wprev.2.1),
               wprev.2.2 + r * (wnext.2.2 - wprev.2.2), B)
    else none
  | _, _ => none

/-- `interpolate_magnetic_to_xy(mf, wp)` (`geomagnetic.py:169`).
A magnetic sample row is `(ts, B)`; an output row is `(ts, x, y, B)`. -/
def interpolate_magnetic_to_xy (mf : List (Int × ℚ)) (wp : List WP) :
    List (Int × ℚ × ℚ × ℚ) :=
  if mf.isEmpty ∨ wp.length < 2 then []
  else
    let wps := sortWp wp
    let mfs := sortMf mf
    mfs.filterMap (fun m => asofOne wps m.1 m.2)

/-! ## Floor metadata (JSON) and affine-transform resolution

`_try_affine_from_floorinfo` / `_parse_affine_from_string` / `_apply_affine_xy`
and the resolution chain of `main` from `10.4waypoint_heatmap.py`
(lines 314–371 and 481–490).  JSON values are modelled by `JVal`; a Python
exception escaping a function is `Except.error ()`.
-/

instance {ε α : Type} [DecidableEq ε] [DecidableEq α] : DecidableEq (Except ε α) :=
  fun a b =>
    match a, b with
    | .ok x, .ok y =>
      if h : x = y then .isTrue (by rw [h]) else .isFalse (by intro hc; cases hc; exact h rfl)
    | .error x, .error y =>
      if h : x = y then .isTrue (by rw [h]) else .isFalse (by intro hc; cases hc; exact h rfl)
    | .ok _, .error _ => .isFalse (by intro hc; cases hc)
    | .error _, .ok _ => .isFalse (by intro hc; cases hc)

/-- A JSON value as produced by `json.load`. -/
inductive JVal
  | num (q : ℚ)
  | str (s : String)
  | bool (b : Bool)
  | null
  | arr (l : List JVal)
  | obj (l : List (String × JVal))

/-- Python truthiness of a JSON value (`or {}` etc.). -/
def pyTruthy : JVal → Bool
  | .num q => q ≠ 0
  | .str s => s ≠ ""
  | .bool b => b
  | .null => false
  | .arr l => !l.isEmpty
  | .obj l => !l.isEmpty

/-- Dictionary lookup (keys of a parsed JSON object are unique). -/
def jLookup (l : List (String × JVal)) (k : String) : Option JVal :=
  (l.find? (fun p => p.1 = k)).map (fun p => p.2)

/-- Python `d.get(k)`: `AttributeError` on a non-dict receiver. -/
def pyGet (o : JVal) (k : String) : Except Unit (Option JVal) :=
  match o with
  | .obj l => .ok (jLookup l k)
  | _ => .error ()

/-- Python `d.get(k, dflt)`: `AttributeError` on a non-dict receiver. -/
def pyGetD (o : JVal) (k : String) (dflt : JVal) : Except Unit JVal :=
  match o with
  | .obj l => .ok ((jLookup l k).getD dflt)
  | _ => .error ()

/-- Python `k in o` for a string `k`: key test on dicts, membership on lists,
substring test on strings, `TypeError` otherwise. -/
def pyIn (k : String) (o : JVal) : Except Unit Bool :=
  match o with
  | .obj l => .ok (l.any (fun p => p.1 = k))
  | .arr l => .ok (l.any (fun v => match v with | .str s => s = k | _ => false))
  | .str s => .ok ((List.range (s.length + 1)).any
      (fun i => k.toList.isPrefixOf (s.toList.drop i)))
  | _ => .error ()

/-- Python `o[k]` for a string key: dict lookup (`KeyError` if absent),
`TypeError` on non-dicts. -/
def pyIndexS (o : JVal) (k : String) : Except Unit JVal :=
  match o with
  | .obj l =>
    match jLookup l k with
    | some v => .ok v
    | none => .error ()
  | _ => .error ()

/-- Python `float(v)` on a JSON value: numbers and booleans convert, numeric
strings convert via the literal syntax of `pyFloat`, everything else raises
(`TypeError`/`ValueError`). -/
def pyFloatVal (v : JVal) : Except Unit ℚ :=
  match v with
  | .num q => .ok q
  | .bool b => .ok (if b then 1 else 0)
  | .str s =>
    match pyFloat s with
    | some q => .ok q
    | none => .error ()
  | _ => .error ()

/-- Python tuple unpacking `a, b = v` of a 2-element sequence; raises
(`ValueError`/`TypeError`) on anything else.  (A 2-character string would
unpack to its characters in Python; that path converts a non-digit character
with `float` and raises anyway, and is modelled directly as a raise.) -/
def pyUnpack2 (v : JVal) : Except Unit (JVal × JVal) :=
  match v with
  | .arr [a, b] => .ok (a, b)
  | _ => .error ()

/-- An affine transform `(a, b, c, d, e, f)` with
`pixel_x = a·x + b·y + e`, `pixel_y = c·x + d·y + f`. -/
structure Affine where
  a : ℚ
  b : ℚ
  c : ℚ
  d : ℚ
  e : ℚ
  f : ℚ
deriving DecidableEq, Repr

/-- `_apply_affine_xy(x, y, A)` (`10.4waypoint_heatmap.py:367`). -/
def applyAffineXY (A : Affine) (x y : ℚ) : ℚ × ℚ :=
  (A.a * x + A.b * y + A.e, A.c * x + A.d * y + A.f)

/-- `math.cos(math.radians θ)` restricted to the rationals.  Every metadata
input exercised in this development has `θ = 0` (the source default), where
the cosine is `1`; at other angles the true value is irrational (not
representable in the `ℚ` embedding) and is modelled by a placeholder that no
theorem depends on. -/
def cosDeg (θ : ℚ) : ℚ := if θ = 0 then 1 else 0

/-- `math.sin(math.radians θ)` under the same convention as `cosDeg`. -/
def sinDeg (_θ : ℚ) : ℚ := 0

/-- `_compose_affine(scale, theta_deg, translate)`
(`10.4waypoint_heatmap.py:314`). -/
def composeAffine (scale : ℚ × ℚ) (thetaDeg : ℚ) (translate : ℚ × ℚ) : Affine :=
  let c := cosDeg thetaDeg
  let s := sinDeg thetaDeg
  ⟨c * scale.1, -s * scale.2, s * scale.1, c * scale.2, translate.1, translate.2⟩

/-- `norm6(v)` inside `_try_affine_from_floorinfo`: a flat 6-list or a
`[[a,b,e],[c,d,f]]` pair; returns `none` on a shape mismatch (skipped by the
caller), raises if a matched shape holds a non-convertible element (the
Python `float` calls and the `c,d,f = v[1]` unpacking are unguarded). -/
def norm6 (v : JVal) : Except Unit (Option Affine) :=
  match v with
  | .arr [v0, v1, v2, v3, v4, v5] => do
    let a ← pyFloatVal v0
    let b ← pyFloatVal v1
    let c ← pyFloatVal v2
    let d ← pyFloatVal v3
    let e ← pyFloatVal v4
    let f ← pyFloatVal v5
    pure (some ⟨a, b, c, d, e, f⟩)
  | .arr [.arr [va, vb, ve], w] => do
    let cdf ← (match w with
      | .arr [vc, vd, vf] => Except.ok (vc, vd, vf)
      | _ => Except.error ())
    let a ← pyFloatVal va
    let b ← pyFloatVal vb
    let c ← pyFloatVal cdf.1
    let d ← pyFloatVal cdf.2.1
    let e ← pyFloatVal ve
    let f ← pyFloatVal cdf.2.2
    pure (some ⟨a, b, c, d, e, f⟩)
  | _ => pure none

/-- The `transform.{a..f}` strategy. -/
def strategyABCDEF (t : JVal) : Except Unit (Option Affine) :=
  match t with
  | .obj tl =>
    match jLookup tl "a", jLookup tl "b", jLookup tl "c",
          jLookup tl "d", jLookup tl "e", jLookup tl "f" with
    | some va, some vb, some vc, some vd, some ve, some vf => do
      let a ← pyFloatVal va
      let b ← pyFloatVal vb
      let c ← pyFloatVal vc
      let d ← pyFloatVal vd
      let e ← pyFloatVal ve
      let f ← pyFloatVal vf
      pure (some ⟨a, b, c, d, e, f⟩)
    | _, _, _, _, _, _ => pure none
  | _ => pure none

/-- The `for k in ("affine","matrix")` loop. -/
def strategyAffineMatrix (t : JVal) : Except Unit (Option Affine) := do
  let hasAffine ← pyIn "affine" t
  let r1 ← (if hasAffine then do
      let v ← pyIndexS t "affine"
      norm6 v
    else pure none)
  match r1 with
  | some A => pure (some A)
  | none => do
    let hasMatrix ← pyIn "matrix" t
    if hasMatrix then do
      let v ← pyIndexS t "matrix"
      norm6 v
    else pure none

/-- The `scale + translate (+ theta_deg)` strategy; entered when both keys are
present, in which case it always returns or raises. `none` means "not entered". -/
def strategyScale (t : JVal) : Except Unit (Option Affine) := do
  let hasScale ← pyIn "scale" t
  if hasScale then do
    let hasTranslate ← pyIn "translate" t
    if hasTranslate then do
      let sv0 ← pyGetD t "scale" (.arr [.num 1, .num 1])
      let sv := if pyTruthy sv0 then sv0 else .arr [.num 1, .num 1]
      let sxy ← pyUnpack2 sv
      let tv0 ← pyGetD t "translate" (.arr [.num 0, .num 0])
      let tv := if pyTruthy tv0 then tv0 else .arr [.num 0, .num 0]
      let txy ← pyUnpack2 tv
      let thv ← pyGetD t "theta_deg" (.num 0)
      let theta ← pyFloatVal thv
      let sx ← pyFloatVal sxy.1
      let sy ← pyFloatVal sxy.2
      let tx ← pyFloatVal txy.1
      let ty ← pyFloatVal txy.2
      pure (some (composeAffine (sx, sy) theta (tx, ty)))
    else pure none
  else pure none

/-- The `map_info.pixel_per_meter / meters_per_pixel (+ origin + theta_deg)`
strategy. -/
def strategyMapInfo (raw : JVal) : Except Unit (Option Affine) := do
  let miv ← pyGet raw "map_info"
  let mi : JVal := match miv with
    | some v => if pyTruthy v then v else .obj []
    | none => .obj []
  match mi with
  | .obj mil => do
    let oxy ← (match jLookup mil "origin" with
      | some (.arr (o0 :: o1 :: _)) => do
        let ox ← pyFloatVal o0
        let oy ← pyFloatVal o1
        Except.ok (ox, oy)
      | _ => Except.ok ((0 : ℚ), (0 : ℚ)))
    let theta ← pyFloatVal ((jLookup mil "theta_deg").getD (.num 0))
    match jLookup mil "pixel_per_meter" with
    | some pv => do
      let ppm ← pyFloatVal pv
      pure (some (composeAffine (ppm, ppm) theta oxy))
    | none =>
      match jLookup mil "meters_per_pixel" with
      | some mv => do
        let mpp ← pyFloatVal mv
        let ppm := if mpp ≠ 0 then 1 / mpp else 1
        pure (some (composeAffine (ppm, ppm) theta oxy))
      | none => pure none
  | _ => pure none

/-- `_try_affine_from_floorinfo(fi_raw)` (`10.4waypoint_heatmap.py:323`):
`.ok (some A)` = a transform was extracted, `.ok none` = `return None`,
`.error ()` = an uncaught exception. -/
def tryAffineFromFloorinfo (fi : JVal) : Except Unit (Option Affine) := do
  let raw : JVal := match fi with
    | .obj _ => fi
    | .arr (v :: _) => v
    | _ => .obj []
  let t0 ← pyGet raw "transform"
  let t : JVal := match t0 with
    | some v => if pyTruthy v then v else .obj []
    | none => .obj []
  match ← strategyABCDEF t with
  | some A => pure (some A)
  | none =>
    match ← strategyAffineMatrix t with
    | some A => pure (some A)
    | none =>
      match ← strategyScale t with
      | some A => pure (some A)
      | none => strategyMapInfo raw

/-- `_parse_affine_from_string(s)` (`10.4waypoint_heatmap.py:358`): six
comma-separated floats, `None` on any failure (the whole body is guarded by
`try/except`). -/
def parseAffineFromString (s : String) : Option Affine :=
  match (s.splitOn ",").mapM (fun x => pyFloat x.trim) with
  | some [a, b, c, d, e, f] => some ⟨a, b, c, d, e, f⟩
  | _ => none

/-- The affine resolution chain of `main` (`10.4waypoint_heatmap.py:481-490`):
explicit override string (if truthy and parseable) → metadata-derived →
default flip `(1, 0, 0, -1, 0, map_h)`. -/
def resolveAffine (override : String) (fi : JVal) (mapH : ℚ) : Except Unit Affine := do
  let A0 : Option Affine := if override ≠ "" then parseAffineFromString override else none
  match A0 with
  | some A => pure A
  | none =>
    match ← tryAffineFromFloorinfo fi with
    | some A => pure A
    | none => pure ⟨1, 0, 0, -1, 0, mapH⟩

/-! ## Robust weight normalizer and heat-point pipelines

`np.percentile(values, p)` (default linear interpolation), the weight
computation of `main` in `10.4waypoint_heatmap.py` (lines 624–641) and the
subsample-then-normalize pipeline of `main` in `geomagnetic.py`
(lines 231–240).  The `DataFrame.sample(n, random_state=42)` subsample is
modelled by the list of (distinct, in-range) row positions it draws.
-/

/-- Sort a list of rationals ascending (`np.percentile` sorts internally). -/
def sortQ (l : List ℚ) : List ℚ := l.insertionSort (· ≤ ·)

/-- `np.percentile(l, p)` with the default linear interpolation:
on the sorted values `vs`, `k = (n-1)·p/100`, result
`vs[⌊k⌋] + (vs[⌈k⌉] - vs[⌊k⌋])·(k - ⌊k⌋)`. -/
def percentileNp (l : List ℚ) (p : ℚ) : ℚ :=
  let vs := sortQ l
  let n := vs.length
  let k : ℚ := ((n : ℚ) - 1) * (p / 100)
  let fl : Nat := (⌊k⌋).toNat
  let ce : Nat := (⌈k⌉).toNat
  vs.getD fl 0 + (vs.getD ce 0 - vs.getD fl 0) * (k - (fl : ℚ))

/-- `np.clip(x, 0.0, 1.0)`. -/
def clip01 (x : ℚ) : ℚ := min (max x 0) 1

/-- The weight computation of `main` in `10.4waypoint_heatmap.py`
(lines 627–633): percentile bounds at `ROBUST_CLIP_P = (5, 95)`, an explicit
guard `(phi - plo) <= 1e-9` mapping every weight to `1.0`, otherwise
`np.clip((B - plo)/(phi - plo), 0.0, 1.0)`.  (`np.isfinite` holds of every
rational.) -/
def normalizeWeights104 (B : List ℚ) : List ℚ :=
  let plo := percentileNp B 5
  let phi := percentileNp B 95
  if phi - plo ≤ 1 / 1000000000 then B.map (fun _ => 1)
  else B.map (fun b => clip01 ((b - plo) / (phi - plo)))

/-- `DataFrame.sample` modelled by the drawn row positions. -/
def sampleRows {α : Type} (rows : List α) (idx : List Nat) : List α :=
  idx.filterMap (fun i => rows.get? i)

/-- The heat-point pipeline of `main` in `10.4waypoint_heatmap.py`
(lines 624–641), tracking the `B` column: weights are computed from
percentiles of the **full** aggregated collection, and only then, when the
collection exceeds `MAX_MAG_POINTS` (20000 in the source; a parameter here),
the random subsample is taken.  Each returned row is `(B, weight)`. -/
def heat104 (B : List ℚ) (maxPts : Nat) (idx : List Nat) : List (ℚ × ℚ) :=
  let rows := B.zip (normalizeWeights104 B)
  if maxPts < rows.length then sampleRows rows idx else rows

/-- The percentile bounds `(plo, phi)` that `heat104` uses for its weights
(computed over the full pre-subsample collection, per the source order of
operations). -/
def heat104Bounds (B : List ℚ) : ℚ × ℚ :=
  (percentileNp B 5, percentileNp B 95)

/-- The rendered values of the `geomagnetic.py` pipeline (lines 234–235):
the subsample is taken **before** normalization.  (The source re-sorts the
subsample by `ts`, which permutes rows only and is dropped here.) -/
def heatGeoVals (B : List ℚ) (maxPts : Nat) (idx : List Nat) : List ℚ :=
  if maxPts < B.length then sampleRows B idx else B

/-- The percentile bounds of the `geomagnetic.py` pipeline (line 238),
computed after the subsample. -/
def heatGeoBounds (B : List ℚ) (maxPts : Nat) (idx : List Nat) : ℚ × ℚ :=
  let vals := heatGeoVals B maxPts idx
  (percentileNp vals 5, percentileNp vals 95)

/-- The weight rows of the `geomagnetic.py` pipeline (lines 238–240):
`denom = max(1e-6, p_hi - p_lo)`, `w = (clip(B, p_lo, p_hi) - p_lo)/denom`. -/
def heatGeo (B : List ℚ) (maxPts : Nat) (idx : List Nat) : List (ℚ × ℚ) :=
  let vals := heatGeoVals B maxPts idx
  let plo := percentileNp vals 5
  let phi := percentileNp vals 95
  let denom := max (1 / 1000000) (phi - plo)
  vals.map (fun b => (b, (min (max b plo) phi - plo) / denom))

/-! ## Log parsers

`_read_waypoints` from `geomagnetic.py` (lines 99–118; numeric conversions
unguarded, so a recognized line with bad numbers raises) and from
`10.4waypoint_heatmap.py` (lines 242–262; conversions wrapped in
`try/except: pass`), plus `parse_waypoints_and_mags` from
`way_point_test/geomag_heatmap.py` (lines 122–177).  A file is its list of
lines (without the trailing newline).
-/

/-- Banker's rounding (numpy/pandas `.round()`: half to even). -/
def roundHalfEven (q : ℚ) : Int :=
  let fl := ⌊q⌋
  let r := q - (fl : ℚ)
  if r < 1 / 2 then fl
  else if 1 / 2 < r then fl + 1
  else if fl % 2 = 0 then fl else fl + 1

/-- The 5 cm grid key of the waypoint snap-dedup
(`SNAP_WAYPOINT_METERS = 0.05`; `x/0.05 = 20·x`). -/
def snapKey (w : WP) : Int × Int :=
  (roundHalfEven (w.2.1 * 20), roundHalfEven (w.2.2 * 20))

/-- `drop_duplicates(["_ix","_iy"])`: keep the first row of each grid key. -/
def dedupByKey : List WP → List (Int × Int) → List WP
  | [], _ => []
  | w :: ws, seen =>
    if snapKey w ∈ seen then dedupByKey ws seen
    else w :: dedupByKey ws (snapKey w :: seen)

/-- Snap waypoints to the 5 cm grid and drop duplicates, keeping first. -/
def snapDedup (l : List WP) : List WP := dedupByKey l []

/-- One line of `_read_waypoints` in `10.4waypoint_heatmap.py` (lines 245–254):
strip, skip comments/blanks, replace commas, split; on a `TYPE_WAYPOINT` line
convert `int(p[0])`, `float(p[2])`, `float(p[3])` inside `try/except: pass`
(`none` = the line contributes no row). -/
def wpLine104 (line : String) : Option WP :=
  let s := trimChars line.toList
  if s = [] ∨ s.headD ' ' = '#' then none
  else
    let p := pySplit (commaToSpace s)
    if 4 ≤ p.length ∧ p.getD 1 [] = "TYPE_WAYPOINT".toList then
      match pyInt (String.mk (p.getD 0 [])), pyFloat (String.mk (p.getD 2 [])),
            pyFloat (String.mk (p.getD 3 [])) with
      | some ts, some x, some y => some (ts, x, y)
      | _, _, _ => none
    else none

/-- `_read_waypoints(path)` of `10.4waypoint_heatmap.py` (lines 242–262):
scan, sort by `ts`, snap-dedup. -/
def readWaypoints104 (lines : List String) : List WP :=
  snapDedup (sortWp (lines.filterMap wpLine104))

/-- One line of `_read_waypoints` in `geomagnetic.py` (lines 102–110): same
recognition logic, but `int`/`float` conversions are **not** guarded — a
recognized `TYPE_WAYPOINT` line whose numeric tokens fail to convert raises,
aborting the scan. -/
def geoWaypointLine (line : String) : Except Unit (Option WP) :=
  let s := trimChars line.toList
  if s = [] ∨ s.headD ' ' = '#' then .ok none
  else
    let p := pySplit (commaToSpace s)
    if 4 ≤ p.length ∧ p.getD 1 [] = "TYPE_WAYPOINT".toList then do
      let ts ← (match pyInt (String.mk (p.getD 0 [])) with
        | some v => Except.ok v
        | none => Except.error ())
      let x ← (match pyFloat (String.mk (p.getD 2 [])) with
        | some v => Except.ok v
        | none => Except.error ())
      let y ← (match pyFloat (String.mk (p.getD 3 [])) with
        | some v => Except.ok v
        | none => Except.error ())
      pure (some (ts, x, y))
    else .ok none

/-- The line loop of `_read_waypoints` in `geomagnetic.py`: the first raising
line aborts the whole scan. -/
def readWaypointsGeoRows : List String → Except Unit (List WP)
  | [] => .ok []
  | l :: ls => do
    let r ← geoWaypointLine l
    let rest ← readWaypointsGeoRows ls
    pure (match r with | some row => row :: rest | none => rest)

/-- `_read_waypoints(path)` of `geomagnetic.py` (lines 99–118): scan (which
may raise), then stable sort by `ts` (`kind="mergesort"`), then snap-dedup
(`SNAP_WP_M = 0.05`). -/
def readWaypointsGeo (lines : List String) : Except Unit (List WP) := do
  let rows ← readWaypointsGeoRows lines
  pure (snapDedup (sortWp rows))

/-- Magnetic-source tag of `parse_waypoints_and_mags`. -/
inductive MagSrc
  | cal
  | uncal
deriving DecidableEq, Repr

/-- Shared line recognizer of `parse_waypoints_and_mags`
(`way_point_test/geomag_heatmap.py:130-141`): skip when the raw line is empty
or starts with `#` (the source tests the unstripped first character; a line
of pure whitespace is dropped just below by the token-count test), tokenize
the stripped line (no comma replacement in this parser), require two tokens
and an integer timestamp. -/
def ghHead (line : String) : Option (Int × List Char × List (List Char)) :=
  if line.toList = [] ∨ line.toList.headD ' ' = '#' then none
  else
    let parts := pySplit (trimChars line.toList)
    if parts.length < 2 then none
    else
      match pyInt (String.mk (parts.getD 0 [])) with
      | none => none
      | some t => some (t, parts.getD 1 [], parts)

/-- A `TYPE_WAYPOINT` line of `parse_waypoints_and_mags` (lines 142–148). -/
def ghWpLine (line : String) : Option WP :=
  match ghHead line with
  | some (t, typ, parts) =>
    if typ = "TYPE_WAYPOINT".toList ∧ 4 ≤ parts.length then
      match pyFloat (String.mk (parts.getD 2 [])), pyFloat (String.mk (parts.getD 3 [])) with
      | some x, some y => some (t, x, y)
      | _, _ => none
    else none
  | none => none

/-- A `TYPE_MAGNETIC_FIELD` line of `parse_waypoints_and_mags`
(lines 150–156). -/
def ghCalLine (line : String) : Option (Int × ℚ × ℚ × ℚ) :=
  match ghHead line with
  | some (t, typ, parts) =>
    if typ = "TYPE_MAGNETIC_FIELD".toList ∧ 5 ≤ parts.length then
      match pyFloat (String.mk (parts.getD 2 [])), pyFloat (String.mk (parts.getD 3 [])),
            pyFloat (String.mk (parts.getD 4 [])) with
      | some bx, some by_, some bz => some (t, bx, by_, bz)
      | _, _, _ => none
    else none
  | none => none

/-- A `TYPE_MAGNETIC_FIELD_UNCALIBRATED` line of `parse_waypoints_and_mags`
(lines 158–164). -/
def ghUncalLine (line : String) : Option (Int × ℚ × ℚ × ℚ) :=
  match ghHead line with
  | some (t, typ, parts) =>
    if typ = "TYPE_MAGNETIC_FIELD_UNCALIBRATED".toList ∧ 5 ≤ parts.length then
      match pyFloat (String.mk (parts.getD 2 [])), pyFloat (String.mk (parts.getD 3 [])),
            pyFloat (String.mk (parts.getD 4 [])) with
      | some bx, some by_, some bz => some (t, bx, by_, bz)
      | _, _, _ => none
    else none
  | none => none

/-- Timestamp order on 4-tuples `(t, bx, by, bz)`. -/
def leT4 (a b : Int × ℚ × ℚ × ℚ) : Prop := a.1 ≤ b.1

instance : DecidableRel leT4 := fun a b => inferInstanceAs (Decidable (a.1 ≤ b.1))

instance : IsTotal (Int × ℚ × ℚ × ℚ) leT4 := ⟨fun a b => le_total a.1 b.1⟩

instance : IsTrans (Int × ℚ × ℚ × ℚ) leT4 := ⟨fun _ _ _ hab hbc => le_trans hab hbc⟩

/-- `parse_waypoints_and_mags(txt_path, prefer)`
(`way_point_test/geomag_heatmap.py:122-177`): collect and sort the waypoint,
calibrated and uncalibrated rows, select the magnetic source per `prefer`,
and tag each selected row with the source. -/
def parse_waypoints_and_mags (lines : List String) (prefer : MagSrc) :
    List WP × List (Int × ℚ × ℚ × ℚ × MagSrc) :=
  let wps := (lines.filterMap ghWpLine).insertionSort leTs
  let cal := (lines.filterMap ghCalLine).insertionSort leT4
  let uncal := (lines.filterMap ghUncalLine).insertionSort leT4
  let sel : List (Int × ℚ × ℚ × ℚ) × MagSrc :=
    if prefer = .uncal ∧ uncal ≠ [] then (uncal, .uncal)
    else if prefer = .cal ∧ cal = [] ∧ uncal ≠ [] then (uncal, .uncal)
    else (cal, .cal)
  (wps, sel.1.map (fun m => (m.1, m.2.1, m.2.2.1, m.2.2.2, sel.2)))

/-! ## Lemmas: the advance loop and the interpolation sweep -/

theorem tsList_length (wps : List WP) : (tsList wps).length = wps.length := by
  simp [tsList]

theorem tsList_getD (wps : List WP) : ∀ i, (tsList wps).getD i 0 = nthT wps i := by
  intro i
  induction wps generalizing i with
  | nil => cases i <;> simp [tsList, nthT]
  | cons w ws ih =>
    cases i with
    | zero => simp [tsList, nthT]
    | succ i0 =>
      have := ih i0
      simpa [tsList, nthT] using this

theorem advanceJAux_le (ts : List Int) (t : Int) :
    ∀ fuel j, j ≤ advanceJAux ts t fuel j := by
  intro fuel
  induction fuel with
  | zero => intro j; simp [advanceJAux]
  | succ fuel ih =>
    intro j
    by_cases h : j + 1 < ts.length ∧ ts.getD (j + 1) 0 ≤ t
    · have h2 := ih (j + 1)
      simp only [advanceJAux]
      rw [if_pos h]
      omega
    · simp only [advanceJAux]
      rw [if_neg h]

theorem advanceJAux_lt_length (ts : List Int) (t : Int) :
    ∀ fuel j, j < ts.length → advanceJAux ts t fuel j < ts.length := by
  intro fuel
  induction fuel with
  | zero => intro j hj; simpa [advanceJAux] using hj
  | succ fuel ih =>
    intro j hj
    by_cases h : j + 1 < ts.length ∧ ts.getD (j + 1) 0 ≤ t
    · have h2 := ih (j + 1) h.1
      simp only [advanceJAux]
      rwa [if_pos h]
    · simp only [advanceJAux]
      rwa [if_neg h]

theorem advanceJAux_le_t (ts : List Int) (t : Int) :
    ∀ fuel j, ts.getD (advanceJAux ts t fuel j) 0 ≤ t ∨ advanceJAux ts t fuel j = j := by
  intro fuel
  induction fuel with
  | zero => intro j; right; simp [advanceJAux]
  | succ fuel ih =>
    intro j
    by_cases h : j + 1 < ts.length ∧ ts.getD (j + 1) 0 ≤ t
    · left
      rcases ih (j + 1) with h2 | h2
      · simp only [advanceJAux]
        rwa [if_pos h]
      · simp only [advanceJAux]
        rw [if_pos h, h2]
        exact h.2
    · right
      simp only [advanceJAux]
      rw [if_neg h]

theorem advanceJAux_post (ts : List Int) (t : Int) :
    ∀ fuel j, ts.length ≤ j + 1 + fuel →
      advanceJAux ts t fuel j + 1 < ts.length →
      t < ts.getD (advanceJAux ts t fuel j + 1) 0 := by
  intro fuel
  induction fuel with
  | zero =>
    intro j hfuel hlt
    simp only [advanceJAux] at hlt
    omega
  | succ fuel ih =>
    intro j hfuel hlt
    by_cases h : j + 1 < ts.length ∧ ts.getD (j + 1) 0 ≤ t
    · have h2 := ih (j + 1) (by omega)
      simp only [advanceJAux] at hlt ⊢
      rw [if_pos h] at hlt ⊢
      exact h2 hlt
    · simp only [advanceJAux] at hlt ⊢
      rw [if_neg h] at hlt ⊢
      rcases not_and_or.mp h with h3 | h3
      · omega
      · have h4 : t < ts.getD (j + 1) 0 := by
          exact lt_of_not_le h3
        exact h4

theorem advanceJ_le (ts : List Int) (t : Int) (j : Nat) : j ≤ advanceJ ts t j :=
  advanceJAux_le ts t ts.length j

theorem advanceJ_lt_length (ts : List Int) (t : Int) (j : Nat) (hj : j < ts.length) :
    advanceJ ts t j < ts.length :=
  advanceJAux_lt_length ts t ts.length j hj

theorem advanceJ_le_t (ts : List Int) (t : Int) (j : Nat) :
    ts.getD (advanceJ ts t j) 0 ≤ t ∨ advanceJ ts t j = j :=
  advanceJAux_le_t ts t ts.length j

theorem advanceJ_post (ts : List Int) (t : Int) (j : Nat)
    (h : advanceJ ts t j + 1 < ts.length) :
    t < ts.getD (advanceJ ts t j + 1) 0 :=
  advanceJAux_post ts t ts.length j (by omega) h

/-- Master lemma for the sweep: the `i`-th output of `interpGo` is
`interpOne` at a pointer position `j'` that is in range, exceeds no
bracketing (`t < ts[j'+1]` whenever `j'+1` is in range), and — when the
sample timestamps are sorted — satisfies `ts[j'] ≤ t` unless the pointer
never moved.  The pointer evolution does not depend on the mode. -/
theorem interpGo_master (wps : List WP) :
    ∀ (times : List Int) (j i : Nat) (t : Int),
      times.get? i = some t → j < wps.length →
      ∃ j', j' < wps.length ∧
        (times.Sorted (· ≤ ·) → ((tsList wps).getD j' 0 ≤ t ∨ j' = j)) ∧
        (j' + 1 < wps.length → t < (tsList wps).getD (j' + 1) 0) ∧
        (∀ mode, (interpGo mode wps j times).get? i = some (interpOne mode wps j' t)) := by
  intro times
  induction times with
  | nil => intro j i t hit; simp at hit
  | cons t0 rest ih =>
    intro j i t hit hj
    cases i with
    | zero =>
      have ht : t0 = t := by simpa using hit
      subst ht
      refine ⟨advanceJ (tsList wps) t0 j, ?_, ?_, ?_, ?_⟩
      · have := advanceJ_lt_length (tsList wps) t0 j (by rwa [tsList_length])
        rwa [tsList_length] at this
      · intro _; exact advanceJ_le_t (tsList wps) t0 j
      · intro hlt
        exact advanceJ_post (tsList wps) t0 j (by rwa [tsList_length])
      · intro mode; simp [interpGo]
    | succ i0 =>
      have hit0 : rest.get? i0 = some t := by simpa using hit
      have hj2 : advanceJ (tsList wps) t0 j < wps.length := by
        have := advanceJ_lt_length (tsList wps) t0 j (by rwa [tsList_length])
        rwa [tsList_length] at this
      obtain ⟨j', hlt, hsorted, hpost, hout⟩ := ih (advanceJ (tsList wps) t0 j) i0 t hit0 hj2
      refine ⟨j', hlt, ?_, hpost, ?_⟩
      · intro hs
        have hrest : rest.Sorted (· ≤ ·) := hs.of_cons
        have ht0t : t0 ≤ t := by
          have hmem : t ∈ rest := List.get?_mem hit0
          exact (List.pairwise_cons.mp hs).1 t hmem
        rcases hsorted hrest with h2 | h2
        · exact Or.inl h2
        · rcases advanceJ_le_t (tsList wps) t0 j with h3 | h3
          · exact Or.inl (by rw [h2]; exact le_trans h3 ht0t)
          · exact Or.inr (by rw [h2, h3])
      · intro mode
        simpa [interpGo] using hout mode

theorem interp_eq_go (wps : List WP) (times : List Int) (mode : IMode) (hne : wps ≠ []) :
    interpolate_pos_for_times wps times mode = interpGo mode wps 0 times := by
  have h : wps.isEmpty = false := by
    cases wps with
    | nil => exact absurd rfl hne
    | cons a l => rfl
  simp [interpolate_pos_for_times, h]

/-- A convex combination of two rationals lies between them. -/
theorem lerp_bounds (a b r : ℚ) (h0 : 0 ≤ r) (h1 : r ≤ 1) :
    min a b ≤ a * (1 - r) + b * r ∧ a * (1 - r) + b * r ≤ max a b := by
  rcases le_total a b with hab | hab
  · rw [min_eq_left hab, max_eq_right hab]
    constructor <;> nlinarith
  · rw [min_eq_right hab, max_eq_left hab]
    constructor <;> nlinarith

/-- **C1**: for sorted waypoints and sorted sample timestamps, every sample
strictly between the first and the last waypoint timestamp gets a linear-mode
position whose `x` and `y` lie within the coordinate ranges of its bracketing
waypoint pair `(t0,x0,y0)`, `(t1,x1,y1)` with `t0 ≤ t ≤ t1`. -/
theorem C1_linear_interp_bounded
    (wps : List WP) (times : List Int)
    (hw : List.Chain' (· ≤ ·) (tsList wps))
    (htimes : List.Chain' (· ≤ ·) times)
    (i : Nat) (t : Int) (hit : times.get? i = some t)
    (hlo : nthT wps 0 < t) (hhi : t < nthT wps (wps.length - 1)) :
    ∃ j x y,
      j + 1 < wps.length ∧ nthT wps j ≤ t ∧ t ≤ nthT wps (j + 1) ∧
      (interpolate_pos_for_times wps times .linear).get? i = some (some (x, y)) ∧
      min (nthX wps j) (nthX wps (j + 1)) ≤ x ∧ x ≤ max (nthX wps j) (nthX wps (j + 1)) ∧
      min (nthY wps j) (nthY wps (j + 1)) ≤ y ∧ y ≤ max (nthY wps j) (nthY wps (j + 1)) := by
  have hne : wps ≠ [] := by
    intro h
    rw [h] at hlo hhi
    simp [nthT] at hlo hhi
    omega
  have hlen : 0 < wps.length := List.length_pos.mpr hne
  obtain ⟨j', hjlt, hsor, hpost, hout⟩ := interpGo_master wps times 0 i t hit hlen
  have hsorted : times.Sorted (· ≤ ·) := List.chain'_iff_pairwise.mp htimes
  have hjle : nthT wps j' ≤ t := by
    rcases hsor hsorted with h | h
    · rwa [tsList_getD] at h
    · rw [h]; exact le_of_lt hlo
  have hjne : j' ≠ wps.length - 1 := by
    intro h
    rw [h] at hjle
    omega
  have hjlt1 : j' + 1 < wps.length := by omega
  have htlt : t < nthT wps (j' + 1) := by
    have h := hpost hjlt1
    rwa [tsList_getD] at h
  have hden : max 1 (nthT wps (j' + 1) - nthT wps j') = nthT wps (j' + 1) - nthT wps j' :=
    max_eq_right (by omega)
  have hval : interpOne .linear wps j' t =
      some (nthX wps j' * (1 - ((t - nthT wps j' : ℤ) : ℚ) /
              ((nthT wps (j' + 1) - nthT wps j' : ℤ) : ℚ)) +
            nthX wps (j' + 1) * (((t - nthT wps j' : ℤ) : ℚ) /
              ((nthT wps (j' + 1) - nthT wps j' : ℤ) : ℚ)),
            nthY wps j' * (1 - ((t - nthT wps j' : ℤ) : ℚ) /
              ((nthT wps (j' + 1) - nthT wps j' : ℤ) : ℚ)) +
            nthY wps (j' + 1) * (((t - nthT wps j' : ℤ) : ℚ) /
              ((nthT wps (j' + 1) - nthT wps j' : ℤ) : ℚ))) := by
    simp only [interpOne]
    rw [if_pos (⟨by omega, hjle, le_of_lt htlt, trivial⟩ :
        j' < wps.length - 1 ∧ nthT wps j' ≤ t ∧ t ≤ nthT wps (j' + 1) ∧ True), hden]
  have hdenpos : (0 : ℚ) < ((nthT wps (j' + 1) - nthT wps j' : ℤ) : ℚ) := by
    exact_mod_cast (by omega : (0 : Int) < nthT wps (j' + 1) - nthT wps j')
  have hr0 : 0 ≤ ((t - nthT wps j' : ℤ) : ℚ) / ((nthT wps (j' + 1) - nthT wps j' : ℤ) : ℚ) := by
    apply div_nonneg _ (le_of_lt hdenpos)
    exact_mod_cast (by omega : (0 : Int) ≤ t - nthT wps j')
  have hr1 : ((t - nthT wps j' : ℤ) : ℚ) / ((nthT wps (j' + 1) - nthT wps j' : ℤ) : ℚ) ≤ 1 := by
    rw [div_le_one hdenpos]
    exact_mod_cast (by omega : t - nthT wps j' ≤ nthT wps (j' + 1) - nthT wps j')
  have hx := lerp_bounds (nthX wps j') (nthX wps (j' + 1)) _ hr0 hr1
  have hy := lerp_bounds (nthY wps j') (nthY wps (j' + 1)) _ hr0 hr1
  refine ⟨j', _, _, hjlt1, hjle, le_of_lt htlt, ?_, hx.1, hx.2, hy.1, hy.2⟩
  rw [interp_eq_go wps times .linear hne, hout .linear, hval]

/-- Closed witness for `C1_linear_interp_bounded`: Scenario A of the spec,
waypoints `[(1000,0,0),(2000,10,0)]`, sample at `t = 1500`. -/
theorem C1_linear_interp_bounded_witness :
    ∃ j x y,
      j + 1 < ([((1000 : Int), (0 : ℚ), (0 : ℚ)), (2000, 10, 0)] : List WP).length ∧
      nthT [((1000 : Int), (0 : ℚ), (0 : ℚ)), (2000, 10, 0)] j ≤ 1500 ∧
      (1500 : Int) ≤ nthT [((1000 : Int), (0 : ℚ), (0 : ℚ)), (2000, 10, 0)] (j + 1) ∧
      (interpolate_pos_for_times [((1000 : Int), (0 : ℚ), (0 : ℚ)), (2000, 10, 0)] [1500]
          .linear).get? 0 = some (some (x, y)) ∧
      min (nthX [((1000 : Int), (0 : ℚ), (0 : ℚ)), (2000, 10, 0)] j)
          (nthX [((1000 : Int), (0 : ℚ), (0 : ℚ)), (2000, 10, 0)] (j + 1)) ≤ x ∧
      x ≤ max (nthX [((1000 : Int), (0 : ℚ), (0 : ℚ)), (2000, 10, 0)] j)
          (nthX [((1000 : Int), (0 : ℚ), (0 : ℚ)), (2000, 10, 0)] (j + 1)) ∧
      min (nthY [((1000 : Int), (0 : ℚ), (0 : ℚ)), (2000, 10, 0)] j)
          (nthY [((1000 : Int), (0 : ℚ), (0 : ℚ)), (2000, 10, 0)] (j + 1)) ≤ y ∧
      y ≤ max (nthY [((1000 : Int), (0 : ℚ), (0 : ℚ)), (2000, 10, 0)] j)
          (nthY [((1000 : Int), (0 : ℚ), (0 : ℚ)), (2000, 10, 0)] (j + 1)) :=
  C1_linear_interp_bounded [((1000 : Int), (0 : ℚ), (0 : ℚ)), (2000, 10, 0)] [1500]
    (by norm_num [tsList, List.chain'_cons, List.chain'_singleton])
    (List.chain'_singleton 1500) 0 1500 (by decide) (by decide) (by decide)

/-- **C2 (counterexample)**: in skip mode, the sample `t = 5` is bracketed by
the consecutive waypoints `(0,0,0)` and `(10,5,5)` (`0 ≤ 5 ≤ 10`), yet
`interpolate_pos_for_times` does **not** return `None` — it returns the
earlier waypoint's position `(0,0)`. -/
theorem C2_counterexample :
    interpolate_pos_for_times [((0 : Int), (0 : ℚ), (0 : ℚ)), (10, 5, 5)] [5] .skip ≠ [none] ∧
    interpolate_pos_for_times [((0 : Int), (0 : ℚ), (0 : ℚ)), (10, 5, 5)] [5] .skip
      = [some (0, 0)] := by
  constructor
  · with_unfolding_all decide
  · with_unfolding_all decide

/-- **C2 (amended)**: in skip mode, every sample within the overall waypoint
time range (in particular every bracketed sample) gets the current waypoint's
position — exactly the hold-mode output — rather than `None`. -/
theorem C2_skip_returns_position
    (wps : List WP) (times : List Int) (i : Nat) (t : Int)
    (hit : times.get? i = some t) (hne : wps ≠ [])
    (hlo : nthT wps 0 ≤ t) (hhi : t ≤ nthT wps (wps.length - 1)) :
    ∃ k, k < wps.length ∧
      (interpolate_pos_for_times wps times .skip).get? i
        = some (some (nthX wps k, nthY wps k)) ∧
      (interpolate_pos_for_times wps times .skip).get? i
        = (interpolate_pos_for_times wps times .hold).get? i := by
  have hlen : 0 < wps.length := List.length_pos.mpr hne
  obtain ⟨j', hjlt, _, _, hout⟩ := interpGo_master wps times 0 i t hit hlen
  have hskip : interpOne .skip wps j' t = some (nthX wps j', nthY wps j') := by
    simp only [interpOne]
    rw [if_neg (fun hc => IMode.noConfusion hc.2.2.2),
      if_neg (fun hc => IMode.noConfusion hc.2.2.2),
      if_neg (not_lt.mpr hlo), if_neg (not_lt.mpr hhi)]
  have hhold : interpOne .hold wps j' t = some (nthX wps j', nthY wps j') := by
    by_cases hbr : j' < wps.length - 1 ∧ nthT wps j' ≤ t ∧ t ≤ nthT wps (j' + 1)
    · simp only [interpOne]
      rw [if_neg (fun hc => IMode.noConfusion hc.2.2.2),
        if_pos (⟨hbr.1, hbr.2.1, hbr.2.2, trivial⟩ :
          j' < wps.length - 1 ∧ nthT wps j' ≤ t ∧ t ≤ nthT wps (j' + 1) ∧ True)]
    · simp only [interpOne]
      rw [if_neg (fun hc => IMode.noConfusion hc.2.2.2),
        if_neg (fun hc => hbr ⟨hc.1, hc.2.1, hc.2.2.1⟩),
        if_neg (not_lt.mpr hlo), if_neg (not_lt.mpr hhi)]
  refine ⟨j', hjlt, ?_, ?_⟩
  · rw [interp_eq_go wps times .skip hne, hout .skip, hskip]
  · rw [interp_eq_go wps times .skip hne, interp_eq_go wps times .hold hne,
      hout .skip, hout .hold, hskip, hhold]

/-- Closed witness for `C2_skip_returns_position` at the counterexample input. -/
theorem C2_skip_returns_position_witness :
    ∃ k, k < ([((0 : Int), (0 : ℚ), (0 : ℚ)), (10, 5, 5)] : List WP).length ∧
      (interpolate_pos_for_times [((0 : Int), (0 : ℚ), (0 : ℚ)), (10, 5, 5)] [5] .skip).get? 0
        = some (some (nthX [((0 : Int), (0 : ℚ), (0 : ℚ)), (10, 5, 5)] k,
                      nthY [((0 : Int), (0 : ℚ), (0 : ℚ)), (10, 5, 5)] k)) ∧
      (interpolate_pos_for_times [((0 : Int), (0 : ℚ), (0 : ℚ)), (10, 5, 5)] [5] .skip).get? 0
        = (interpolate_pos_for_times [((0 : Int), (0 : ℚ), (0 : ℚ)), (10, 5, 5)] [5]
            .hold).get? 0 :=
  C2_skip_returns_position [((0 : Int), (0 : ℚ), (0 : ℚ)), (10, 5, 5)] [5] 0 5
    (by with_unfolding_all decide) (by with_unfolding_all decide)
    (by with_unfolding_all decide) (by with_unfolding_all decide)

/-- **C3 (counterexample)**: with the zero-duration waypoint pair
`[(1000,0,0),(1000,5,5)]` and a sample at `t = 1000`, linear-mode
`interpolate_pos_for_times` does **not** return `(0,0)` (the first waypoint). -/
theorem C3_counterexample :
    interpolate_pos_for_times [((1000 : Int), (0 : ℚ), (0 : ℚ)), (1000, 5, 5)] [1000]
      .linear ≠ [some (0, 0)] := by
  with_unfolding_all decide

/-- **C3 (amended)**: on `[(1000,0,0),(1000,5,5)]` with a sample at `t = 1000`
the advance loop steps past the zero-duration pair and the function returns
`(5,5)` — the **last** waypoint with timestamp `≤ t`.  No division is reached
on this path (and the `max(1, ·)` guard would make it total anyway); the
embedding is a total function, so no exception is raised. -/
theorem C3_zero_duration_last_waypoint :
    interpolate_pos_for_times [((1000 : Int), (0 : ℚ), (0 : ℚ)), (1000, 5, 5)] [1000]
      .linear = [some (5, 5)] := by
  with_unfolding_all decide

/-! ## Lemmas: `merge_asof` matches -/

theorem findPrevRow_mem {t : Int} :
    ∀ {l : List WP} {w : WP}, findPrevRow t l = some w → w ∈ l ∧ w.1 ≤ t := by
  intro l
  induction l with
  | nil => intro w h; simp [findPrevRow] at h
  | cons v vs ih =>
    intro w h
    by_cases hv : v.1 ≤ t
    · rw [findPrevRow, if_pos hv] at h
      cases hrec : findPrevRow t vs with
      | some r =>
        rw [hrec] at h
        cases h
        have h2 := ih hrec
        exact ⟨List.mem_cons_of_mem v h2.1, h2.2⟩
      | none =>
        rw [hrec] at h
        cases h
        exact ⟨List.mem_cons_self v vs, hv⟩
    · rw [findPrevRow, if_neg hv] at h
      have h2 := ih h
      exact ⟨List.mem_cons_of_mem v h2.1, h2.2⟩

theorem findPrevRow_isSome {t : Int} :
    ∀ {l : List WP} {u : WP}, u ∈ l → u.1 ≤ t → ∃ w, findPrevRow t l = some w := by
  intro l
  induction l with
  | nil => intro u hu; simp at hu
  | cons v vs ih =>
    intro u hu hut
    by_cases hv : v.1 ≤ t
    · rw [findPrevRow, if_pos hv]
      cases hrec : findPrevRow t vs with
      | some r => exact ⟨r, rfl⟩
      | none => exact ⟨v, rfl⟩
    · rcases List.mem_cons.mp hu with h | h
      · rw [h] at hut; exact absurd hut hv
      · obtain ⟨w, hw⟩ := ih h hut
        rw [findPrevRow, if_neg hv]
        exact ⟨w, hw⟩

theorem findPrevRow_max {t : Int} :
    ∀ {l : List WP}, l.Sorted leTs → ∀ {w : WP}, findPrevRow t l = some w →
      ∀ u ∈ l, u.1 ≤ t → u.1 ≤ w.1 := by
  intro l
  induction l with
  | nil => intro _ w h; simp [findPrevRow] at h
  | cons v vs ih =>
    intro hs w h u hu hut
    have hvs : vs.Sorted leTs := hs.of_cons
    have hvall : ∀ z ∈ vs, v.1 ≤ z.1 := fun z hz => List.rel_of_sorted_cons hs z hz
    by_cases hv : v.1 ≤ t
    · rw [findPrevRow, if_pos hv] at h
      cases hrec : findPrevRow t vs with
      | some r =>
        rw [hrec] at h
        cases h
        rcases List.mem_cons.mp hu with h2 | h2
        · rw [h2]
          have hr := findPrevRow_mem hrec
          exact hvall _ hr.1
        · exact ih hvs hrec u h2 hut
      | none =>
        rw [hrec] at h
        cases h
        rcases List.mem_cons.mp hu with h2 | h2
        · rw [h2]
        · obtain ⟨r, hr⟩ := findPrevRow_isSome h2 hut
          rw [hr] at hrec
          cases hrec
    · rw [findPrevRow, if_neg hv] at h
      rcases List.mem_cons.mp hu with h2 | h2
      · rw [h2] at hut; exact absurd hut hv
      · exact ih hvs h u h2 hut

theorem findNextRow_mem {t : Int} :
    ∀ {l : List WP} {w : WP}, findNextRow t l = some w → w ∈ l ∧ t ≤ w.1 := by
  intro l
  induction l with
  | nil => intro w h; simp [findNextRow] at h
  | cons v vs ih =>
    intro w h
    by_cases hv : t ≤ v.1
    · rw [findNextRow, if_pos hv] at h
      cases h
      exact ⟨List.mem_cons_self v vs, hv⟩
    · rw [findNextRow, if_neg hv] at h
      have h2 := ih h
      exact ⟨List.mem_cons_of_mem v h2.1, h2.2⟩

theorem findNextRow_isSome {t : Int} :
    ∀ {l : List WP} {u : WP}, u ∈ l → t ≤ u.1 → ∃ w, findNextRow t l = some w := by
  intro l
  induction l with
  | nil => intro u hu; simp at hu
  | cons v vs ih =>
    intro u hu hut
    by_cases hv : t ≤ v.1
    · rw [findNextRow, if_pos hv]; exact ⟨v, rfl⟩
    · rcases List.mem_cons.mp hu with h | h
      · rw [h] at hut; exact absurd hut hv
      · obtain ⟨w, hw⟩ := ih h hut
        rw [findNextRow, if_neg hv]
        exact ⟨w, hw⟩

theorem findNextRow_min {t : Int} :
    ∀ {l : List WP}, l.Sorted leTs → ∀ {w : WP}, findNextRow t l = some w →
      ∀ u ∈ l, t ≤ u.1 → w.1 ≤ u.1 := by
  intro l
  induction l with
  | nil => intro _ w h; simp [findNextRow] at h
  | cons v vs ih =>
    intro hs w h u hu hut
    have hvs : vs.Sorted leTs := hs.of_cons
    by_cases hv : t ≤ v.1
    · rw [findNextRow, if_pos hv] at h
      cases h
      rcases List.mem_cons.mp hu with h2 | h2
      · rw [h2]
      · exact List.rel_of_sorted_cons hs u h2
    · rw [findNextRow, if_neg hv] at h
      rcases List.mem_cons.mp hu with h2 | h2
      · rw [h2] at hut; exact absurd hut hv
      · exact ih hvs h u h2 hut

/-- On a frame sorted by timestamp, a sample whose timestamp equals some
waypoint timestamp is filtered out: both asof matches land on timestamp `t`
itself, so `ts_next > ts_prev` fails. -/
theorem asofOne_eq_none_of_mem (l : List WP) (hs : l.Sorted leTs) (t : Int) (B : ℚ)
    (ht : t ∈ l.map (fun w => w.1)) : asofOne l t B = none := by
  obtain ⟨u, hu, hut⟩ := List.mem_map.mp ht
  obtain ⟨wp, hwp⟩ := findPrevRow_isSome hu (le_of_eq hut)
  obtain ⟨wn, hwn⟩ := findNextRow_isSome hu (ge_of_eq hut)
  have h1 : t ≤ wp.1 := by
    have := findPrevRow_max hs hwp u hu (le_of_eq hut)
    omega
  have h2 : wn.1 ≤ t := by
    have := findNextRow_min hs hwn u hu (ge_of_eq hut)
    omega
  simp only [asofOne, hwp, hwn]
  rw [if_neg (by omega)]

/-- On a sorted frame, every row produced by the asof computation sits
strictly between two distinct waypoint timestamps and carries the sample's
timestamp. -/
theorem asofOne_some_between (l : List WP) (hs : l.Sorted leTs) (t : Int) (B : ℚ)
    (row : Int × ℚ × ℚ × ℚ) (h : asofOne l t B = some row) :
    row.1 = t ∧ ∃ tp tn, tp ∈ l.map (fun w => w.1) ∧ tn ∈ l.map (fun w => w.1) ∧
      tp < t ∧ t < tn := by
  cases hwp : findPrevRow t l with
  | none => simp [asofOne, hwp] at h
  | some wp =>
    cases hwn : findNextRow t l with
    | none => simp [asofOne, hwp, hwn] at h
    | some wn =>
      simp only [asofOne, hwp, hwn] at h
      by_cases hlt : wp.1 < wn.1
      · rw [if_pos hlt] at h
        have hp := findPrevRow_mem hwp
        have hn := findNextRow_mem hwn
        have hrow : row.1 = t := by cases h; rfl
        refine ⟨hrow, wp.1, wn.1, List.mem_map.mpr ⟨wp, hp.1, rfl⟩,
          List.mem_map.mpr ⟨wn, hn.1, rfl⟩, ?_, ?_⟩
        · rcases lt_or_eq_of_le hp.2 with h2 | h2
          · exact h2
          · exfalso
            have h3 : wn.1 ≤ wp.1 := findNextRow_min hs hwn wp hp.1 (le_of_eq h2.symm)
            omega
        · rcases lt_or_eq_of_le hn.2 with h2 | h2
          · exact h2
          · exfalso
            have h3 : wn.1 ≤ wp.1 := findPrevRow_max hs hwp wn hn.1 (le_of_eq h2.symm)
            omega
      · rw [if_neg hlt] at h
        cases h

/-- **C9**: in the `merge_asof`-based interpolator, a magnetic sample whose
timestamp exactly equals some waypoint timestamp (first and last included)
yields no output row, because the backward and the forward match then carry
the same timestamp and the filter `ts_next > ts_prev` rejects it; every
surviving row's timestamp lies strictly between two distinct waypoint
timestamps. -/
theorem C9_exact_waypoint_timestamp_excluded (mf : List (Int × ℚ)) (wp : List WP) :
    (∀ t B, t ∈ wp.map (fun w => w.1) → asofOne (sortWp wp) t B = none) ∧
    (∀ row ∈ interpolate_magnetic_to_xy mf wp,
      row.1 ∉ wp.map (fun w => w.1) ∧
      ∃ tp tn, tp ∈ wp.map (fun w => w.1) ∧ tn ∈ wp.map (fun w => w.1) ∧
        tp < row.1 ∧ row.1 < tn) := by
  have hsorted : (sortWp wp).Sorted leTs := List.sorted_insertionSort leTs wp
  have hperm : List.Perm ((sortWp wp).map (fun w => w.1)) (wp.map (fun w => w.1)) :=
    (List.perm_insertionSort leTs wp).map (fun w => w.1)
  have hmap : ∀ s : Int, s ∈ wp.map (fun w => w.1) ↔ s ∈ (sortWp wp).map (fun w => w.1) :=
    fun s => (hperm.mem_iff).symm
  have hnone : ∀ t B, t ∈ wp.map (fun w => w.1) → asofOne (sortWp wp) t B = none :=
    fun t B ht => asofOne_eq_none_of_mem (sortWp wp) hsorted t B ((hmap t).mp ht)
  refine ⟨hnone, ?_⟩
  intro row hrow
  by_cases hcond : mf.isEmpty = true ∨ wp.length < 2
  · rw [interpolate_magnetic_to_xy, if_pos hcond] at hrow
    simp at hrow
  · rw [interpolate_magnetic_to_xy, if_neg hcond] at hrow
    obtain ⟨m, _, hasof⟩ := List.mem_filterMap.mp hrow
    obtain ⟨hrowt, tp, tn, htp, htn, hlt1, hlt2⟩ :=
      asofOne_some_between (sortWp wp) hsorted m.1 m.2 row hasof
    refine ⟨?_, tp, tn, (hmap tp).mpr htp, (hmap tn).mpr htn, by omega, by omega⟩
    intro hmem
    have := hnone row.1 m.2 hmem
    rw [hrowt] at this
    rw [this] at hasof
    cases hasof

/-- Closed witness for `C9_exact_waypoint_timestamp_excluded`: a sample at
`t = 1000`, equal to the first waypoint timestamp of
`[(1000,0,0),(2000,1,1)]`, is excluded. -/
theorem C9_exact_waypoint_timestamp_excluded_witness :
    asofOne (sortWp [((1000 : Int), (0 : ℚ), (0 : ℚ)), (2000, 1, 1)]) 1000 5 = none :=
  (C9_exact_waypoint_timestamp_excluded [] [((1000 : Int), (0 : ℚ), (0 : ℚ)), (2000, 1, 1)]).1
    1000 5 (by decide)

/-! ## Lemmas: strictly sorted waypoint frames and C10 -/

theorem getD_eq_get {α : Type} (l : List α) (d : α) {i : Nat} (h : i < l.length) :
    l.getD i d = l.get ⟨i, h⟩ := by
  rw [List.getD_eq_getElem?_getD, List.getElem?_eq_getElem h]
  rfl

theorem nthT_lt_of_chain (wps : List WP) (hw : List.Chain' ltTs wps)
    {i j : Nat} (hij : i < j) (hj : j < wps.length) : nthT wps i < nthT wps j := by
  have hp := List.chain'_iff_pairwise.mp hw
  have hi : i < wps.length := lt_trans hij hj
  have h := List.pairwise_iff_get.mp hp ⟨i, hi⟩ ⟨j, hj⟩ hij
  rw [nthT, nthT, getD_eq_get _ _ hi, getD_eq_get _ _ hj]
  exact h

theorem nthT_le_of_chain (wps : List WP) (hw : List.Chain' ltTs wps)
    {i j : Nat} (hij : i ≤ j) (hj : j < wps.length) : nthT wps i ≤ nthT wps j := by
  rcases lt_or_eq_of_le hij with h | h
  · exact le_of_lt (nthT_lt_of_chain wps hw h hj)
  · rw [h]

theorem chain'_ltTs_sorted (wps : List WP) (hw : List.Chain' ltTs wps) :
    wps.Sorted leTs := by
  have hp := List.chain'_iff_pairwise.mp hw
  exact hp.imp (fun h => le_of_lt h)

theorem findPrevRow_none {t : Int} :
    ∀ {l : List WP}, (∀ u ∈ l, ¬ u.1 ≤ t) → findPrevRow t l = none := by
  intro l
  induction l with
  | nil => intro _; rfl
  | cons v vs ih =>
    intro h
    rw [findPrevRow, if_neg (h v (List.mem_cons_self v vs))]
    exact ih (fun u hu => h u (List.mem_cons_of_mem v hu))

theorem findPrevRow_spec {t : Int} :
    ∀ (pre : List WP) (w : WP) (post : List WP),
      (∀ u ∈ pre, u.1 ≤ t) → w.1 ≤ t → (∀ u ∈ post, ¬ u.1 ≤ t) →
      findPrevRow t (pre ++ w :: post) = some w := by
  intro pre
  induction pre with
  | nil =>
    intro w post _ hw hpost
    rw [List.nil_append, findPrevRow, if_pos hw, findPrevRow_none hpost]
  | cons p ps ih =>
    intro w post hpre hw hpost
    rw [List.cons_append, findPrevRow, if_pos (hpre p (List.mem_cons_self p ps)),
      ih w post (fun u hu => hpre u (List.mem_cons_of_mem p hu)) hw hpost]

theorem findNextRow_spec {t : Int} :
    ∀ (pre : List WP) (w : WP) (post : List WP),
      (∀ u ∈ pre, ¬ t ≤ u.1) → t ≤ w.1 →
      findNextRow t (pre ++ w :: post) = some w := by
  intro pre
  induction pre with
  | nil =>
    intro w post _ hw
    rw [List.nil_append, findNextRow, if_pos hw]
  | cons p ps ih =>
    intro w post hpre hw
    rw [List.cons_append, findNextRow, if_neg (hpre p (List.mem_cons_self p ps)),
      ih w post (fun u hu => hpre u (List.mem_cons_of_mem p hu)) hw]

/-- **C10**: for a waypoint sequence with strictly increasing timestamps and a
(sorted) sample sequence, a sample `t` strictly inside the consecutive pair
`ts[k] < t < ts[k+1]` gets the same exact position from the two-pointer
linear interpolator `interpolate_pos_for_times` and from the
`merge_asof`-based `interpolate_magnetic_to_xy`: both use the ratio
`(t - t0)/(t1 - t0)` against the same bracketing pair. -/
theorem C10_interpolators_agree
    (wps : List WP) (times : List Int) (B : ℚ) (i k : Nat) (t : Int)
    (hw : List.Chain' ltTs wps)
    (htimes : List.Chain' (· ≤ ·) times)
    (hit : times.get? i = some t)
    (hk : k + 1 < wps.length)
    (h0 : nthT wps k < t) (h1 : t < nthT wps (k + 1)) :
    ∃ x y : ℚ,
      (interpolate_pos_for_times wps times .linear).get? i = some (some (x, y)) ∧
      interpolate_magnetic_to_xy [(t, B)] wps = [(t, x, y, B)] ∧
      x = nthX wps k + ((t - nthT wps k : ℤ) : ℚ) / ((nthT wps (k + 1) - nthT wps k : ℤ) : ℚ)
            * (nthX wps (k + 1) - nthX wps k) ∧
      y = nthY wps k + ((t - nthT wps k : ℤ) : ℚ) / ((nthT wps (k + 1) - nthT wps k : ℤ) : ℚ)
            * (nthY wps (k + 1) - nthY wps k) := by
  have hlen : 0 < wps.length := by omega
  have hne : wps ≠ [] := by
    intro h; rw [h] at hlen; simp at hlen
  -- ---- two-pointer side ----
  obtain ⟨j', hjlt, hsor, hpost, hout⟩ := interpGo_master wps times 0 i t hit hlen
  have hsorted : times.Sorted (· ≤ ·) := List.chain'_iff_pairwise.mp htimes
  have hjle : nthT wps j' ≤ t := by
    rcases hsor hsorted with h | h
    · rwa [tsList_getD] at h
    · rw [h]
      exact le_trans (nthT_le_of_chain wps hw (Nat.zero_le k) (by omega)) (le_of_lt h0)
  -- pin the pointer at k
  have hjk : j' = k := by
    by_contra hne2
    rcases Nat.lt_or_ge j' k with hlt | hge
    · -- j' < k: then j'+1 ≤ k, so ts[j'+1] ≤ ts[k] < t, contradicting the post condition
      have hj1 : j' + 1 < wps.length := by omega
      have hp := hpost hj1
      rw [tsList_getD] at hp
      have := nthT_le_of_chain wps hw (by omega : j' + 1 ≤ k) (by omega)
      omega
    · -- j' > k: then ts[k+1] ≤ ts[j'] ≤ t, contradicting t < ts[k+1]
      have hgt : k + 1 ≤ j' := by omega
      have := nthT_le_of_chain wps hw hgt hjlt
      omega
  subst hjk
  have htlt : t < nthT wps (j' + 1) := h1
  have hden : max 1 (nthT wps (j' + 1) - nthT wps j') = nthT wps (j' + 1) - nthT wps j' :=
    max_eq_right (by omega)
  have hval : interpOne .linear wps j' t =
      some (nthX wps j' * (1 - ((t - nthT wps j' : ℤ) : ℚ) /
              ((nthT wps (j' + 1) - nthT wps j' : ℤ) : ℚ)) +
            nthX wps (j' + 1) * (((t - nthT wps j' : ℤ) : ℚ) /
              ((nthT wps (j' + 1) - nthT wps j' : ℤ) : ℚ)),
            nthY wps j' * (1 - ((t - nthT wps j' : ℤ) : ℚ) /
              ((nthT wps (j' + 1) - nthT wps j' : ℤ) : ℚ)) +
            nthY wps (j' + 1) * (((t - nthT wps j' : ℤ) : ℚ) /
              ((nthT wps (j' + 1) - nthT wps j' : ℤ) : ℚ))) := by
    simp only [interpOne]
    rw [if_pos (⟨by omega, hjle, le_of_lt htlt, trivial⟩ :
        j' < wps.length - 1 ∧ nthT wps j' ≤ t ∧ t ≤ nthT wps (j' + 1) ∧ True), hden]
  -- ---- merge_asof side ----
  have hsorted2 : wps.Sorted leTs := chain'_ltTs_sorted wps hw
  have hsortid : sortWp wps = wps := List.Sorted.insertionSort_eq hsorted2
  have hklen : j' < wps.length := by omega
  set wk := wps.getD j' ((0 : Int), (0 : ℚ), (0 : ℚ)) with hwk
  set wk1 := wps.getD (j' + 1) ((0 : Int), (0 : ℚ), (0 : ℚ)) with hwk1
  have hwkt : wk.1 = nthT wps j' := rfl
  have hwk1t : wk1.1 = nthT wps (j' + 1) := rfl
  have hdropk : wps.drop j' = wk :: wps.drop (j' + 1) := by
    rw [hwk, getD_eq_get _ _ hklen]
    exact List.drop_eq_get_cons hklen
  have hdropk1 : wps.drop (j' + 1) = wk1 :: wps.drop (j' + 2) := by
    rw [hwk1, getD_eq_get _ _ hk]
    exact List.drop_eq_get_cons hk
  have hsplit : wps = wps.take j' ++ wk :: wk1 :: wps.drop (j' + 2) := by
    conv_lhs => rw [← List.take_append_drop j' wps]
    rw [hdropk, hdropk1]
  have hpw : wps.Pairwise ltTs := List.chain'_iff_pairwise.mp hw
  have hpw2 : (wps.take j' ++ wk :: wk1 :: wps.drop (j' + 2)).Pairwise ltTs := by
    rw [← hsplit]; exact hpw
  have hpa := List.pairwise_append.mp hpw2
  have hpreLt : ∀ u ∈ wps.take j', u.1 < wk.1 :=
    fun u hu => hpa.2.2 u hu wk (List.mem_cons_self _ _)
  have hpreP : ∀ u ∈ wps.take j', u.1 ≤ t := by
    intro u hu
    have h2 := hpreLt u hu
    rw [hwkt] at h2
    omega
  have hpostP : ∀ u ∈ wk1 :: wps.drop (j' + 2), ¬ u.1 ≤ t := by
    intro u hu
    rcases List.mem_cons.mp hu with h | h
    · rw [h, hwk1t]; omega
    · have hpw3 : (wk1 :: wps.drop (j' + 2)).Pairwise ltTs := hpa.2.1.of_cons
      have h2 : wk1.1 < u.1 := (List.pairwise_cons.mp hpw3).1 u h
      rw [hwk1t] at h2
      omega
  have hprev : findPrevRow t wps = some wk := by
    conv_lhs => rw [hsplit]
    exact findPrevRow_spec _ _ _ hpreP (by rw [hwkt]; omega) hpostP
  have hsplit2 : wps = (wps.take j' ++ [wk]) ++ wk1 :: wps.drop (j' + 2) := by
    conv_lhs => rw [hsplit]
    simp
  have hneP : ∀ u ∈ wps.take j' ++ [wk], ¬ t ≤ u.1 := by
    intro u hu
    rcases List.mem_append.mp hu with h | h
    · have h2 := hpreLt u h
      rw [hwkt] at h2
      omega
    · have h2 : u = wk := by simpa using h
      rw [h2, hwkt]
      omega
  have hnext : findNextRow t wps = some wk1 := by
    conv_lhs => rw [hsplit2]
    exact findNextRow_spec _ _ _ hneP (by rw [hwk1t]; omega)
  have hlt12 : wk.1 < wk1.1 := by
    rw [hwkt, hwk1t]; omega
  have hasof : asofOne wps t B =
      some (t,
        nthX wps j' + ((t - nthT wps j' : ℤ) : ℚ) /
            ((nthT wps (j' + 1) - nthT wps j' : ℤ) : ℚ) * (nthX wps (j' + 1) - nthX wps j'),
        nthY wps j' + ((t - nthT wps j' : ℤ) : ℚ) /
            ((nthT wps (j' + 1) - nthT wps j' : ℤ) : ℚ) * (nthY wps (j' + 1) - nthY wps j'),
        B) := by
    simp only [asofOne, hprev, hnext]
    rw [if_pos hlt12, hwk, hwk1]
    rfl
  have hfull : interpolate_magnetic_to_xy [(t, B)] wps =
      [(t,
        nthX wps j' + ((t - nthT wps j' : ℤ) : ℚ) /
            ((nthT wps (j' + 1) - nthT wps j' : ℤ) : ℚ) * (nthX wps (j' + 1) - nthX wps j'),
        nthY wps j' + ((t - nthT wps j' : ℤ) : ℚ) /
            ((nthT wps (j' + 1) - nthT wps j' : ℤ) : ℚ) * (nthY wps (j' + 1) - nthY wps j'),
        B)] := by
    rw [interpolate_magnetic_to_xy,
      if_neg (by push_neg; exact ⟨by simp, by omega⟩)]
    have hmf : sortMf [(t, B)] = [(t, B)] := rfl
    rw [hmf, hsortid]
    simp [List.filterMap_cons, hasof]
  have hxeq : nthX wps j' * (1 - ((t - nthT wps j' : ℤ) : ℚ) /
          ((nthT wps (j' + 1) - nthT wps j' : ℤ) : ℚ)) +
        nthX wps (j' + 1) * (((t - nthT wps j' : ℤ) : ℚ) /
          ((nthT wps (j' + 1) - nthT wps j' : ℤ) : ℚ)) =
      nthX wps j' + ((t - nthT wps j' : ℤ) : ℚ) /
          ((nthT wps (j' + 1) - nthT wps j' : ℤ) : ℚ) * (nthX wps (j' + 1) - nthX wps j') := by
    ring
  have hyeq : nthY wps j' * (1 - ((t - nthT wps j' : ℤ) : ℚ) /
          ((nthT wps (j' + 1) - nthT wps j' : ℤ) : ℚ)) +
        nthY wps (j' + 1) * (((t - nthT wps j' : ℤ) : ℚ) /
          ((nthT wps (j' + 1) - nthT wps j' : ℤ) : ℚ)) =
      nthY wps j' + ((t - nthT wps j' : ℤ) : ℚ) /
          ((nthT wps (j' + 1) - nthT wps j' : ℤ) : ℚ) * (nthY wps (j' + 1) - nthY wps j') := by
    ring
  refine ⟨_, _, ?_, hfull, rfl, rfl⟩
  rw [interp_eq_go wps times .linear hne, hout .linear, hval, hxeq, hyeq]

/-- Closed witness for `C10_interpolators_agree`: waypoints
`[(1000,0,0),(2000,10,0)]`, sample at `t = 1500`, bracketed by the pair
`k = 0`. -/
theorem C10_interpolators_agree_witness :
    ∃ x y : ℚ,
      (interpolate_pos_for_times [((1000 : Int), (0 : ℚ), (0 : ℚ)), (2000, 10, 0)] [1500]
          .linear).get? 0 = some (some (x, y)) ∧
      interpolate_magnetic_to_xy [((1500 : Int), (7 : ℚ))]
          [((1000 : Int), (0 : ℚ), (0 : ℚ)), (2000, 10, 0)] = [(1500, x, y, 7)] ∧
      x = nthX [((1000 : Int), (0 : ℚ), (0 : ℚ)), (2000, 10, 0)] 0 +
            ((1500 - nthT [((1000 : Int), (0 : ℚ), (0 : ℚ)), (2000, 10, 0)] 0 : ℤ) : ℚ) /
              ((nthT [((1000 : Int), (0 : ℚ), (0 : ℚ)), (2000, 10, 0)] 1
                - nthT [((1000 : Int), (0 : ℚ), (0 : ℚ)), (2000, 10, 0)] 0 : ℤ) : ℚ)
            * (nthX [((1000 : Int), (0 : ℚ), (0 : ℚ)), (2000, 10, 0)] 1
                - nthX [((1000 : Int), (0 : ℚ), (0 : ℚ)), (2000, 10, 0)] 0) ∧
      y = nthY [((1000 : Int), (0 : ℚ), (0 : ℚ)), (2000, 10, 0)] 0 +
            ((1500 - nthT [((1000 : Int), (0 : ℚ), (0 : ℚ)), (2000, 10, 0)] 0 : ℤ) : ℚ) /
              ((nthT [((1000 : Int), (0 : ℚ), (0 : ℚ)), (2000, 10, 0)] 1
                - nthT [((1000 : Int), (0 : ℚ), (0 : ℚ)), (2000, 10, 0)] 0 : ℤ) : ℚ)
            * (nthY [((1000 : Int), (0 : ℚ), (0 : ℚ)), (2000, 10, 0)] 1
                - nthY [((1000 : Int), (0 : ℚ), (0 : ℚ)), (2000, 10, 0)] 0) :=
  C10_interpolators_agree [((1000 : Int), (0 : ℚ), (0 : ℚ)), (2000, 10, 0)] [1500] 7 0 0 1500
    (by norm_num [tsList, ltTs, List.chain'_cons, List.chain'_singleton])
    (List.chain'_singleton 1500) (by decide) (by decide) (by decide) (by decide)

/-! ## Affine resolution (C4, C7) -/

/-- **C4 (counterexample)**: floor metadata whose `transform.a` is `null`
(a value Python's `float` cannot convert) makes the resolution chain raise an
uncaught `TypeError` instead of skipping to the next strategy — resolution is
not total on value-malformed metadata. -/
theorem C4_counterexample :
    resolveAffine ""
      (JVal.obj [("transform", JVal.obj [("a", JVal.null), ("b", JVal.num 0),
        ("c", JVal.num 0), ("d", JVal.num 0), ("e", JVal.num 0), ("f", JVal.num 0)])])
      100 = .error () := by
  with_unfolding_all decide

/-- **C4 (amended)**: the resolution chain tries the explicit override, then
the metadata strategies, then the default flip `(1,0,0,-1,0,map_h)`;
an `affine`/`matrix` entry of the wrong **shape** is skipped in favor of the
next strategy (here: a 3-element `affine` falls through to a valid `matrix`,
and with nothing else present falls through to the default flip).  Only
value-malformed fields (non-numeric where `float` is applied) raise, per the
counterexample. -/
theorem C4_fallback_and_shape_skip :
    (∀ (fi : JVal) (mapH : ℚ), tryAffineFromFloorinfo fi = .ok none →
      resolveAffine "" fi mapH = .ok ⟨1, 0, 0, -1, 0, mapH⟩) ∧
    tryAffineFromFloorinfo (JVal.obj [("transform", JVal.obj
      [("affine", JVal.arr [JVal.num 1, JVal.num 2, JVal.num 3]),
       ("matrix", JVal.arr [JVal.num 2, JVal.num 0, JVal.num 0, JVal.num 2,
          JVal.num 3, JVal.num 4])])]) = .ok (some ⟨2, 0, 0, 2, 3, 4⟩) ∧
    tryAffineFromFloorinfo (JVal.obj [("transform", JVal.obj
      [("affine", JVal.arr [JVal.num 1, JVal.num 2, JVal.num 3])])]) = .ok none := by
  refine ⟨?_, by with_unfolding_all decide, by with_unfolding_all decide⟩
  intro fi mapH h
  simp [resolveAffine, h, Except.bind, bind, pure, Except.pure]

/-- Closed witness for `C4_fallback_and_shape_skip`: empty metadata resolves
to the default flip. -/
theorem C4_fallback_and_shape_skip_witness :
    resolveAffine "" (JVal.obj []) 200 = .ok ⟨1, 0, 0, -1, 0, 200⟩ :=
  C4_fallback_and_shape_skip.1 (JVal.obj []) 200 (by with_unfolding_all decide)

/-- **C7**: metadata with only `map_info.width`/`height` (no transform, no
`pixel_per_meter`/`meters_per_pixel`) resolves to the default flip
`(1, 0, 0, -1, 0, map_height)`, and with height `200` the point `(10,20)`
maps to `(10,180)`. -/
theorem C7_default_flip_affine (w h : ℚ) :
    resolveAffine "" (JVal.obj [("map_info",
      JVal.obj [("width", JVal.num w), ("height", JVal.num h)])]) h
      = .ok ⟨1, 0, 0, -1, 0, h⟩ ∧
    applyAffineXY ⟨1, 0, 0, -1, 0, 200⟩ 10 20 = (10, 180) := by
  constructor
  · rfl
  · with_unfolding_all decide

/-- Closed instance of `C7_default_flip_affine` at width 100, height 200. -/
theorem C7_default_flip_affine_witness :
    resolveAffine "" (JVal.obj [("map_info",
      JVal.obj [("width", JVal.num 100), ("height", JVal.num 200)])]) 200
      = .ok ⟨1, 0, 0, -1, 0, 200⟩ :=
  (C7_default_flip_affine 100 200).1

/-! ## Robust weight normalizer (C5) -/

theorem percentileNp_eq (l : List ℚ) (p : ℚ) :
    percentileNp l p =
      (sortQ l).getD ((⌊(((sortQ l).length : ℚ) - 1) * (p / 100)⌋).toNat) 0 +
      ((sortQ l).getD ((⌈(((sortQ l).length : ℚ) - 1) * (p / 100)⌉).toNat) 0 -
       (sortQ l).getD ((⌊(((sortQ l).length : ℚ) - 1) * (p / 100)⌋).toNat) 0) *
      ((((sortQ l).length : ℚ) - 1) * (p / 100) -
       (((⌊(((sortQ l).length : ℚ) - 1) * (p / 100)⌋).toNat : Nat) : ℚ)) := rfl

theorem sortQ_all_eq (l : List ℚ) (c : ℚ) (hall : ∀ b ∈ l, b = c) :
    ∀ b ∈ sortQ l, b = c := by
  intro b hb
  exact hall b ((List.perm_insertionSort _ l).mem_iff.mp hb)

theorem getD_all_eq (l : List ℚ) (c : ℚ) (hall : ∀ b ∈ l, b = c) {i : Nat}
    (h : i < l.length) : l.getD i 0 = c := by
  rw [getD_eq_get _ _ h]
  exact hall _ (l.get_mem i h)

/-- `np.percentile` of a constant collection is that constant, for any
percentile in `[0, 100]`. -/
theorem percentileNp_const (l : List ℚ) (c : ℚ) (hne : l ≠ []) (hall : ∀ b ∈ l, b = c)
    (p : ℚ) (hp0 : 0 ≤ p) (hp100 : p ≤ 100) : percentileNp l p = c := by
  have hallS := sortQ_all_eq l c hall
  have hlen : (sortQ l).length = l.length := List.length_insertionSort _ l
  have hpos : 0 < (sortQ l).length := by
    rw [hlen]; exact List.length_pos.mpr hne
  have hn1 : (1 : ℚ) ≤ ((sortQ l).length : ℚ) := by exact_mod_cast hpos
  have hk0 : 0 ≤ (((sortQ l).length : ℚ) - 1) * (p / 100) := by
    apply mul_nonneg (by linarith) (by positivity)
  have hk1 : (((sortQ l).length : ℚ) - 1) * (p / 100) ≤ ((sortQ l).length : ℚ) - 1 := by
    nlinarith
  have hcast : (((sortQ l).length : ℚ) - 1) = ((((sortQ l).length : Int) - 1 : Int) : ℚ) := by
    push_cast
    ring
  have hfl1 : ⌊(((sortQ l).length : ℚ) - 1) * (p / 100)⌋ ≤ ((sortQ l).length : Int) - 1 := by
    calc ⌊(((sortQ l).length : ℚ) - 1) * (p / 100)⌋ ≤ ⌊((sortQ l).length : ℚ) - 1⌋ :=
          Int.floor_le_floor hk1
    _ = ((sortQ l).length : Int) - 1 := by rw [hcast, Int.floor_intCast]
  have hce1 : ⌈(((sortQ l).length : ℚ) - 1) * (p / 100)⌉ ≤ ((sortQ l).length : Int) - 1 := by
    calc ⌈(((sortQ l).length : ℚ) - 1) * (p / 100)⌉ ≤ ⌈((sortQ l).length : ℚ) - 1⌉ :=
          Int.ceil_le_ceil hk1
    _ = ((sortQ l).length : Int) - 1 := by rw [hcast, Int.ceil_intCast]
  have hflN : (⌊(((sortQ l).length : ℚ) - 1) * (p / 100)⌋).toNat < (sortQ l).length := by
    omega
  have hceN : (⌈(((sortQ l).length : ℚ) - 1) * (p / 100)⌉).toNat < (sortQ l).length := by
    omega
  have hg1 := getD_all_eq (sortQ l) c hallS hflN
  have hg2 := getD_all_eq (sortQ l) c hallS hceN
  rw [percentileNp_eq, hg1, hg2]
  ring

/-- **C5**: the weight computation of `10.4waypoint_heatmap.py` maps every
non-empty input collection to weights in `[0,1]`, and on a constant
collection (where the 95th-minus-5th percentile gap vanishes) the explicit
guard maps every weight to exactly `1`. -/
theorem C5_weights_bounded_and_degenerate (B : List ℚ) (hne : B ≠ []) :
    (∀ w ∈ normalizeWeights104 B, 0 ≤ w ∧ w ≤ 1) ∧
    (∀ c : ℚ, (∀ b ∈ B, b = c) → ∀ w ∈ normalizeWeights104 B, w = 1) := by
  constructor
  · intro w hw
    simp only [normalizeWeights104] at hw
    by_cases hg : percentileNp B 95 - percentileNp B 5 ≤ 1 / 1000000000
    · rw [if_pos hg] at hw
      obtain ⟨b, _, hb⟩ := List.mem_map.mp hw
      rw [← hb]
      norm_num
    · rw [if_neg hg] at hw
      obtain ⟨b, _, hb⟩ := List.mem_map.mp hw
      rw [← hb, clip01]
      constructor
      · exact le_min (le_max_right _ _) zero_le_one
      · exact min_le_right _ _
  · intro c hall w hw
    have h5 : percentileNp B 5 = c :=
      percentileNp_const B c hne hall 5 (by norm_num) (by norm_num)
    have h95 : percentileNp B 95 = c :=
      percentileNp_const B c hne hall 95 (by norm_num) (by norm_num)
    simp only [normalizeWeights104, h5, h95] at hw
    rw [if_pos (by norm_num : c - c ≤ (1 : ℚ) / 1000000000)] at hw
    obtain ⟨b, _, hb⟩ := List.mem_map.mp hw
    exact hb.symm

/-- Closed witness for `C5_weights_bounded_and_degenerate`: the constant
collection `[3,3,3]`. -/
theorem C5_weights_bounded_and_degenerate_witness :
    (0 ≤ (normalizeWeights104 [3, 3, 3]).headD 0 ∧
      (normalizeWeights104 [3, 3, 3]).headD 0 ≤ 1) ∧
    (normalizeWeights104 [3, 3, 3]).headD 0 = 1 :=
  ⟨(C5_weights_bounded_and_degenerate [3, 3, 3] (by decide)).1 _
      (by with_unfolding_all decide),
   (C5_weights_bounded_and_degenerate [3, 3, 3] (by decide)).2 3 (by decide) _
      (by with_unfolding_all decide)⟩

/-! ## Sampling vs. normalization order (C6) -/

/-- **C6 (counterexample)**: in `10.4waypoint_heatmap.py` the percentile
bounds are computed over the full aggregated collection *before* the
subsample is taken.  For the collection `[0,4,100]` with a maximum of `2`
points, **every** possible 2-row draw of `DataFrame.sample` (all six ordered
position lists enumerated) renders a multiset different from the one the
bounds were computed over, and the percentiles of the rendered multiset
differ from the bounds actually used. -/
theorem C6_counterexample :
    (([[0, 1], [1, 0], [0, 2], [2, 0], [1, 2], [2, 1]] : List (List Nat)).all
      (fun idx =>
        decide (¬ List.Perm ((heat104 [0, 4, 100] 2 idx).map Prod.fst) [0, 4, 100]) &&
        decide (percentileNp ((heat104 [0, 4, 100] 2 idx).map Prod.fst) 5
          ≠ (heat104Bounds [0, 4, 100]).1) &&
        decide (percentileNp ((heat104 [0, 4, 100] 2 idx).map Prod.fst) 95
          ≠ (heat104Bounds [0, 4, 100]).2))) = true := by
  with_unfolding_all decide

/-- **C6 (amended)**: in `geomagnetic.py` the subsample is taken first, so
the percentile bounds are computed over exactly the rendered collection; in
`10.4waypoint_heatmap.py` this holds only when no subsampling occurs (the
collection is within the maximum), the rendered collection then being the
full one. -/
theorem C6_stats_population (B : List ℚ) (maxPts : Nat) (idx : List Nat) :
    heatGeoBounds B maxPts idx =
      (percentileNp ((heatGeo B maxPts idx).map Prod.fst) 5,
       percentileNp ((heatGeo B maxPts idx).map Prod.fst) 95) ∧
    (¬ maxPts < B.length → (heat104 B maxPts idx).map Prod.fst = B) := by
  constructor
  · have hmap : (heatGeo B maxPts idx).map Prod.fst = heatGeoVals B maxPts idx := by
      simp [heatGeo, Function.comp_def]
    rw [heatGeoBounds, hmap]
  · intro h
    have hwlen : (normalizeWeights104 B).length = B.length := by
      rw [normalizeWeights104]
      split <;> simp
    have hzlen : (B.zip (normalizeWeights104 B)).length = B.length := by
      rw [List.length_zip, hwlen, min_self]
    rw [heat104, if_neg (by rw [hzlen]; exact h)]
    exact List.map_fst_zip B (normalizeWeights104 B) (by rw [hwlen])

/-- Closed witness for `C6_stats_population`: no subsampling at
`B = [1,2]`, maximum 5. -/
theorem C6_stats_population_witness :
    (heat104 [1, 2] 5 []).map Prod.fst = [1, 2] :=
  (C6_stats_population [1, 2] 5 []).2 (by norm_num)

/-! ## Parser error behaviour (C8) -/

/-- **C8 (counterexample)**: `_read_waypoints` in `geomagnetic.py` has no
`try/except` around its numeric conversions: a recognized `TYPE_WAYPOINT`
line with a non-numeric coordinate (`"1500 TYPE_WAYPOINT abc 2.0"`) raises
`ValueError` and aborts the whole scan instead of being silently dropped. -/
theorem C8_counterexample :
    readWaypointsGeo ["1000 TYPE_WAYPOINT 1.0 2.0", "1500 TYPE_WAYPOINT abc 2.0",
      "2000 TYPE_WAYPOINT 3.0 4.0"] = .error () := by
  with_unfolding_all decide

/-- **C8 (amended)**: in the `try/except`-guarded parsers —
`_read_waypoints` of `10.4waypoint_heatmap.py` and
`parse_waypoints_and_mags` of `way_point_test/geomag_heatmap.py` — a line
contributing no parsed record (in particular a recognized-type line whose
numeric tokens fail to convert) is silently dropped and the scan of the rest
of the file is unaffected; the records of all other lines are returned. -/
theorem C8_malformed_line_dropped :
    (∀ s : String, wpLine104 s = none → ∀ pre post : List String,
      readWaypoints104 (pre ++ s :: post) = readWaypoints104 (pre ++ post)) ∧
    (∀ s : String, ghWpLine s = none → ghCalLine s = none → ghUncalLine s = none →
      ∀ (pre post : List String) (prefer : MagSrc),
        parse_waypoints_and_mags (pre ++ s :: post) prefer
          = parse_waypoints_and_mags (pre ++ post) prefer) ∧
    readWaypoints104 ["1000 TYPE_WAYPOINT 1.0 2.0", "1500 TYPE_WAYPOINT abc 2.0",
      "2000 TYPE_WAYPOINT 3.0 4.0"] = [(1000, 1, 2), (2000, 3, 4)] := by
  refine ⟨?_, ?_, by with_unfolding_all decide⟩
  · intro s hs pre post
    rw [readWaypoints104, readWaypoints104, List.filterMap_append, List.filterMap_append,
      List.filterMap_cons_none hs]
  · intro s hs1 hs2 hs3 pre post prefer
    simp only [parse_waypoints_and_mags, List.filterMap_append,
      List.filterMap_cons_none hs1, List.filterMap_cons_none hs2,
      List.filterMap_cons_none hs3]

/-- Closed witness for `C8_malformed_line_dropped`: inserting the malformed
line between two good lines leaves the parsed records unchanged. -/
theorem C8_malformed_line_dropped_witness :
    readWaypoints104 (["1000 TYPE_WAYPOINT 1.0 2.0"] ++ "1500 TYPE_WAYPOINT abc 2.0" ::
        ["2000 TYPE_WAYPOINT 3.0 4.0"])
      = readWaypoints104 (["1000 TYPE_WAYPOINT 1.0 2.0"] ++ ["2000 TYPE_WAYPOINT 3.0 4.0"]) :=
  C8_malformed_line_dropped.1 "1500 TYPE_WAYPOINT abc 2.0" (by with_unfolding_all decide)
    ["1000 TYPE_WAYPOINT 1.0 2.0"] ["2000 TYPE_WAYPOINT 3.0 4.0"]
